import Mathlib

/-!
Verification development for the react-sdk-manager core: a shallow
embedding of the plugin registry (src/core/PluginManager.ts), the reactive
store (src/core/StateManager.ts), the lifecycle hook bus
(src/core/LifecycleManager.ts) and the coordinator teardown logic
(src/core/SDKManager.ts), together with theorems settling the frozen
claims about them.

Modelling conventions:
* JavaScript `Map`s are insertion-ordered association lists; `mset`
  mirrors `Map.set` (update in place, append when fresh), `mdel` mirrors
  `Map.delete`, `mget` mirrors `Map.get`.
* A thrown `SDKError` is a value of `SDKErr`: its `code` field, plus the
  `code` of the SDKError stored in `details` when the thrown error wraps
  an inner SDKError (the wrapping performed by the catch blocks of
  PluginManager and SDKManager).  User-supplied callbacks that throw
  non-SDK errors yield `causeCode = none`.
* Plugin `initialize` / `destroy` callbacks are modelled by
  `Option Bool`: `none` means the field is absent, `some true` a callback
  that returns normally, `some false` a callback that throws.  Their
  external side effects are irrelevant to every claim and are not
  modelled.
* Recursions that the TypeScript source runs on the heap (the cycle DFS
  of validateDependencies, the dependents DFS of
  sortPluginsByDependenciesReverse, the live Set.forEach of
  StateManager) are given explicit fuel.  The fuel bounds are generous
  enough that no evaluation appearing in this file exhausts them.
-/

/-! ## Error codes (src/types/index.ts SDKError, codes per §7 of the spec) -/

def codeAlreadyExists : String := "PLUGIN_ALREADY_EXISTS"

def codeNotFound : String := "PLUGIN_NOT_FOUND"

def codeHasDependents : String := "PLUGIN_HAS_DEPENDENTS"

def codeHasEnabledDependents : String := "PLUGIN_HAS_ENABLED_DEPENDENTS"

def codeDepNotFound : String := "DEPENDENCY_NOT_FOUND"

def codeDepNotEnabled : String := "DEPENDENCY_NOT_ENABLED"

def codeCircular : String := "CIRCULAR_DEPENDENCY"

def codeRegFailed : String := "PLUGIN_REGISTRATION_FAILED"

def codeUnregFailed : String := "PLUGIN_UNREGISTRATION_FAILED"

def codeEnableFailed : String := "PLUGIN_ENABLE_FAILED"

def codeDisableFailed : String := "PLUGIN_DISABLE_FAILED"

def codeDestructionFailed : String := "DESTRUCTION_FAILED"

/-- A thrown SDKError: its own `code`, and the code of the wrapped inner
SDKError (the `details` argument) when there is one. -/
structure SDKErr where
  code : String
  causeCode : Option String
  deriving DecidableEq, Repr

/-- The error carries `c` either as its own code or as the code of the
SDKError it wraps; this is the reading of "fails with code c" used by the
spec, which states that registry errors are wrapped (§4.3, §7). -/
def SDKErr.hasCode (e : SDKErr) (c : String) : Prop :=
  e.code = c ∨ e.causeCode = some c

instance (e : SDKErr) (c : String) : Decidable (e.hasCode c) := by
  unfold SDKErr.hasCode; infer_instance

/-! ## Association-list maps mirroring the JavaScript Map type -/

/-- Map.get. -/
def mget {κ α : Type} [DecidableEq κ] (m : List (κ × α)) (k : κ) : Option α :=
  match m with
  | [] => none
  | (a, v) :: t => if a = k then some v else mget t k

/-- Map.set: overwrite in place when the key exists, append otherwise. -/
def mset {κ α : Type} [DecidableEq κ] (m : List (κ × α)) (k : κ) (v : α) :
    List (κ × α) :=
  match m with
  | [] => [(k, v)]
  | (a, w) :: t => if a = k then (k, v) :: t else (a, w) :: mset t k v

/-- Map.delete: remove the entry with the given key. -/
def mdel {κ α : Type} [DecidableEq κ] (m : List (κ × α)) (k : κ) :
    List (κ × α) :=
  match m with
  | [] => []
  | (a, w) :: t => if a = k then t else (a, w) :: mdel t k

theorem mget_mset_self {κ α : Type} [DecidableEq κ]
    (m : List (κ × α)) (k : κ) (v : α) : mget (mset m k v) k = some v := by
  induction m with
  | nil => simp [mget, mset]
  | cons hd t ih =>
    by_cases h : hd.1 = k
    · simp [mget, mset, h]
    · simp [mget, mset, h, ih]

theorem mget_mset_ne {κ α : Type} [DecidableEq κ]
    (m : List (κ × α)) (k k' : κ) (v : α) (h : k ≠ k') :
    mget (mset m k v) k' = mget m k' := by
  induction m with
  | nil => simp [mget, mset, h]
  | cons hd t ih =>
    by_cases hh : hd.1 = k
    · simp [mget, mset, hh, h]
    · simp [mget, mset, hh, ih]

theorem mget_mem {κ α : Type} [DecidableEq κ]
    (m : List (κ × α)) (k : κ) (v : α) (h : mget m k = some v) :
    (k, v) ∈ m := by
  induction m with
  | nil => simp [mget] at h
  | cons hd t ih =>
    by_cases hh : hd.1 = k
    · simp [mget, hh] at h
      cases hd
      simp_all
    · simp [mget, hh] at h
      exact List.mem_cons_of_mem _ (ih h)

/-! ## Plugin registry (src/core/PluginManager.ts) -/

/-- A plugin descriptor.  `initFn` and `destroyFn` model the optional
`initialize` / `destroy` callbacks; the opaque `version`, `component` and
`hooks` fields are never read by the registry logic and are omitted. -/
structure Plugin where
  name : String
  enabled : Bool
  dependencies : Option (List String)
  initFn : Option Bool
  destroyFn : Option Bool
  deriving DecidableEq, Repr

/-- The PluginManager state: the `plugins` map and the reverse-dependency
graph `dependencyGraph` (key is depended upon by the listed names). -/
structure PM where
  plugins : List (String × Plugin)
  dependencyGraph : List (String × List String)
  deriving DecidableEq, Repr

def PM.empty : PM := ⟨[], []⟩

/-- The `dependencies || []` coercion used throughout the source. -/
def depsOrNil (p : Plugin) : List String := p.dependencies.getD []

/-- The dependency lookup of the cycle DFS:
`pluginName === plugin.name ? plugin.dependencies || [] :
this.plugins.get(pluginName)?.dependencies || []`. -/
def cycleDeps (pm : PM) (p : Plugin) (name : String) : List String :=
  if name = p.name then depsOrNil p
  else ((mget pm.plugins name).bind Plugin.dependencies).getD []

/-- State of the cycle DFS: the `visited` and `recursionStack` sets. -/
structure DfsSt where
  visited : List String
  stack : List String
  deriving Repr

/-- The `hasCycle` closure of validateDependencies, fuel-indexed.  An
`inl name` task is one `hasCycle(name)` call (mark visited and on the
stack, walk the dependencies, then pop the stack); an `inr deps` task is
the loop over a dependency list.  Fuel decreases on every call; the fuel
budget passed by `validateDeps` is ample for every evaluation here. -/
def hasCycleGo (pm : PM) (p : Plugin) :
    Nat → Sum String (List String) → DfsSt → Bool × DfsSt
  | 0, _, st => (true, st)
  | fuel + 1, Sum.inl name, st =>
    let st1 : DfsSt := ⟨name :: st.visited, name :: st.stack⟩
    match hasCycleGo pm p fuel (Sum.inr (cycleDeps pm p name)) st1 with
    | (true, st2) => (true, st2)
    | (false, st2) => (false, ⟨st2.visited, st2.stack.erase name⟩)
  | _ + 1, Sum.inr [], st => (false, st)
  | fuel + 1, Sum.inr (d :: rest), st =>
    if d ∉ st.visited then
      match hasCycleGo pm p fuel (Sum.inl d) st with
      | (true, st') => (true, st')
      | (false, st') => hasCycleGo pm p fuel (Sum.inr rest) st'
    else if d ∈ st.stack then (true, st)
    else hasCycleGo pm p fuel (Sum.inr rest) st

/-- Fuel bound for the cycle DFS: comfortably larger than the number of
calls the DFS can make over the registered plugins plus the candidate. -/
def cycleFuel (pm : PM) (p : Plugin) : Nat :=
  (pm.plugins.length + (depsOrNil p).length + 2) *
    (pm.plugins.length + (depsOrNil p).length + 2)

/-- validateDependencies: absent dependency list skips everything; then
the existence check over the declared dependencies; then the cycle DFS.
Returns the code of the SDKError it throws, if any. -/
def validateDeps (pm : PM) (p : Plugin) : Option String :=
  match p.dependencies with
  | none => none
  | some deps =>
    if deps.any (fun d => (mget pm.plugins d).isNone) then
      some codeDepNotFound
    else if (hasCycleGo pm p (cycleFuel pm p) (Sum.inl p.name) ⟨[], []⟩).1 then
      some codeCircular
    else none

/-- updateDependencyGraph: for each declared dependency `d`, ensure the
graph has an entry for `d` and add the plugin's name to it (Set.add). -/
def updateGraph (g : List (String × List String)) (p : Plugin) :
    List (String × List String) :=
  match p.dependencies with
  | none => g
  | some deps =>
    deps.foldl
      (fun g' d =>
        let cur := (mget g' d).getD []
        mset g' d (if p.name ∈ cur then cur else cur ++ [p.name]))
      g

/-- getDependents: `Array.from(this.dependencyGraph.get(pluginName) || [])`. -/
def getDependents (pm : PM) (name : String) : List String :=
  (mget pm.dependencyGraph name).getD []

/-- PluginManager.register.  All failures inside the try block are
wrapped as PLUGIN_REGISTRATION_FAILED with the inner error as cause.
When the plugin starts enabled and its initialize callback throws, the
descriptor has already been stored and remains stored (no rollback in
the source). -/
def register (pm : PM) (p : Plugin) : PM × Option SDKErr :=
  if (mget pm.plugins p.name).isSome then
    (pm, some ⟨codeRegFailed, some codeAlreadyExists⟩)
  else
    match validateDeps pm p with
    | some c => (pm, some ⟨codeRegFailed, some c⟩)
    | none =>
      let pm1 : PM :=
        ⟨mset pm.plugins p.name p, updateGraph pm.dependencyGraph p⟩
      if p.enabled ∧ p.initFn = some false then
        (pm1, some ⟨codeRegFailed, none⟩)
      else (pm1, none)

/-- PluginManager.unregister.  The not-found check precedes the try
block (unwrapped error); the dependents check and the destroy callback
run inside it (wrapped as PLUGIN_UNREGISTRATION_FAILED).  On success the
plugin entry and its own dependents key are deleted; the plugin's name
is NOT removed from the dependent sets of other graph keys. -/
def unregister (pm : PM) (name : String) : PM × Option SDKErr :=
  match mget pm.plugins name with
  | none => (pm, some ⟨codeNotFound, none⟩)
  | some p =>
    if getDependents pm name ≠ [] then
      (pm, some ⟨codeUnregFailed, some codeHasDependents⟩)
    else if p.enabled ∧ p.destroyFn = some false then
      (pm, some ⟨codeUnregFailed, none⟩)
    else
      (⟨mdel pm.plugins name, mdel pm.dependencyGraph name⟩, none)

/-- PluginManager.enable.  No-op when already enabled; every declared
dependency must be registered and enabled; the initialize callback runs
before the flag is set. -/
def enable (pm : PM) (name : String) : PM × Option SDKErr :=
  match mget pm.plugins name with
  | none => (pm, some ⟨codeNotFound, none⟩)
  | some p =>
    if p.enabled then (pm, none)
    else if (depsOrNil p).any (fun d =>
        match mget pm.plugins d with
        | none => true
        | some q => !q.enabled) then
      (pm, some ⟨codeEnableFailed, some codeDepNotEnabled⟩)
    else if p.initFn = some false then
      (pm, some ⟨codeEnableFailed, none⟩)
    else
      (⟨mset pm.plugins name { p with enabled := true }, pm.dependencyGraph⟩,
        none)

/-- PluginManager.disable.  No-op when already disabled; blocked while
an enabled dependent exists; the destroy callback runs before the flag
is cleared. -/
def disable (pm : PM) (name : String) : PM × Option SDKErr :=
  match mget pm.plugins name with
  | none => (pm, some ⟨codeNotFound, none⟩)
  | some p =>
    if !p.enabled then (pm, none)
    else if (getDependents pm name).any (fun d =>
        match mget pm.plugins d with
        | none => false
        | some q => q.enabled) then
      (pm, some ⟨codeDisableFailed, some codeHasEnabledDependents⟩)
    else if p.destroyFn = some false then
      (pm, some ⟨codeDisableFailed, none⟩)
    else
      (⟨mset pm.plugins name { p with enabled := false }, pm.dependencyGraph⟩,
        none)

/-- PluginManager.getAll: the values of the plugins map in insertion
order. -/
def getAll (pm : PM) : List Plugin := pm.plugins.map Prod.snd

/-! ## Reactive store (src/core/StateManager.ts)

State values are JavaScript objects; reference identity (`!==`) is
modelled by an allocation id `oid` carried by each object, with the
store's `nextOid` counter handing out fresh ids for the object spread
`{ ...this.state, ...newState }`.  Listener callbacks are identified by
a `Nat` and their bodies are restricted to the actions the claims need:
adding a listener, removing a listener, or doing nothing (an `LEnv`
association assigns an action to an id; absent ids do nothing). -/

/-- A JavaScript object: allocation identity plus named integer fields. -/
structure JSObj where
  oid : Nat
  fields : List (String × Int)
  deriving DecidableEq, Repr

/-- The body of a subscriber callback, restricted to listener-set
mutation. -/
inductive LEffect where
  | noop : LEffect
  | addL : Nat → LEffect
  | removeL : Nat → LEffect
  deriving DecidableEq, Repr

/-- Assignment of callback bodies to listener ids. -/
abbrev LEnv : Type := List (Nat × LEffect)

def lookupEff (env : LEnv) (x : Nat) : LEffect := (mget env x).getD LEffect.noop

/-- One callback's mutation of the live Set, in the ECMAScript model of
Set iteration: the ordered entry list keeps a tombstone (`none`) for a
deleted entry, `add` of an already-present value is a no-op and a fresh
value is appended at the end. -/
def applyEff (raw : List (Option Nat)) : LEffect → List (Option Nat)
  | LEffect.noop => raw
  | LEffect.addL x => if some x ∈ raw then raw else raw ++ [some x]
  | LEffect.removeL x => raw.map (fun e => if e = some x then none else e)

/-- `Set.prototype.forEach` over the live entry list: the cursor `i`
walks the evolving list, skipping tombstones, invoking each live entry
and applying its mutation before moving on.  Entries appended during the
pass are therefore visited; entries tombstoned before being reached are
not.  Returns the invocation sequence and the final entry list.  Fuel
decreases every step; callers pass enough for every evaluation here. -/
def forEachStep (env : LEnv) :
    Nat → List (Option Nat) → Nat → List Nat × List (Option Nat)
  | 0, raw, _ => ([], raw)
  | fuel + 1, raw, i =>
    match raw[i]? with
    | none => ([], raw)
    | some none => forEachStep env fuel raw (i + 1)
    | some (some x) =>
      let raw' := applyEff raw (lookupEff env x)
      let r := forEachStep env fuel raw' (i + 1)
      (x :: r.1, r.2)

/-- StateManager.notifyListeners: `this.listeners.forEach(...)` on the
live Set.  Returns the ids invoked (each invocation receives
`(state, prevState)`; a throwing listener is caught and logged, which
does not affect the sequence) and the listener set after the pass. -/
def notifyListeners (env : LEnv) (l : List Nat) : List Nat × List Nat :=
  let r := forEachStep env (l.length + env.length + 1) (l.map some) 0
  (r.1, r.2.filterMap id)

/-- The StateManager state: current value, allocation counter, the
listener Set in insertion order, and the persistence configuration. -/
structure Store where
  state : JSObj
  nextOid : Nat
  listeners : List Nat
  persist : Bool
  persistKey : Option String
  deriving DecidableEq, Repr

/-- The argument of setState: a function update producing a wholesale
replacement, or an object update shallow-merged over the current
value. -/
inductive Upd where
  | fn : (JSObj → JSObj) → Upd
  | obj : List (String × Int) → Upd

/-- The object spread `{ ...base, ...patch }`: base entries overridden
by patch values, patch-only keys appended. -/
def spreadMerge (base patch : List (String × Int)) :
    List (String × Int) :=
  base.map (fun kv =>
      match mget patch kv.1 with
      | some v => (kv.1, v)
      | none => kv) ++
    patch.filter (fun kv => (mget base kv.1).isNone)

/-- Everything setState produces: the new store, the subscriber
invocation sequence of the notification pass (empty when the identity
guard short-circuits), and the localStorage writes performed by
persistState. -/
structure SetStateResult where
  store : Store
  log : List Nat
  writes : List (String × JSObj)
  deriving Repr

/-- StateManager.setState: compute the candidate value (a function
update returns whatever reference the function produces; an object
update always allocates a fresh object), assign it, and when it differs
from the previous reference run the notification pass and, if
configured, persistState (which does nothing without a persistKey). -/
def setState (env : LEnv) (st : Store) (u : Upd) : SetStateResult :=
  let prevState := st.state
  let next : JSObj × Nat :=
    match u with
    | Upd.fn f => (f st.state, st.nextOid)
    | Upd.obj patch =>
      (⟨st.nextOid, spreadMerge st.state.fields patch⟩, st.nextOid + 1)
  if next.1 = prevState then
    (⟨⟨next.1, next.2, st.listeners, st.persist, st.persistKey⟩, [], []⟩)
  else
    let r := notifyListeners env st.listeners
    ⟨⟨next.1, next.2, r.2, st.persist, st.persistKey⟩, r.1,
      if st.persist then
        match st.persistKey with
        | some k => [(k, next.1)]
        | none => []
      else []⟩

/-! ## Lifecycle hook bus (src/core/LifecycleManager.ts)

Hook callbacks are identified by a `Nat`; `throwsWith = some e` models a
callback whose body throws the error `e`, `none` one that returns
normally.  Callback bodies do not mutate the bus: `emit` snapshots the
callback Set before iterating (`Array.from`), so for the claims at hand
bus mutation during a pass is unobservable anyway. -/

/-- The six lifecycle hook names (src/types/index.ts LifecycleHook). -/
inductive Hook where
  | beforeMount : Hook
  | afterMount : Hook
  | beforeUnmount : Hook
  | afterUnmount : Hook
  | stateChange : Hook
  | error : Hook
  deriving DecidableEq, Repr

/-- A registered hook callback. -/
structure Cb where
  id : Nat
  throwsWith : Option String
  deriving DecidableEq, Repr

/-- The hooks map of the LifecycleManager. -/
abbrev HB : Type := List (Hook × List Cb)

/-- The hookTypes list of initializeHooks, in source order. -/
def hookTypes : List Hook :=
  [Hook.beforeMount, Hook.afterMount, Hook.beforeUnmount,
    Hook.afterUnmount, Hook.stateChange, Hook.error]

/-- initializeHooks: ensure every enumerated hook has a (possibly empty)
callback set, leaving existing sets alone. -/
def setupHooks (hb : HB) : HB :=
  hookTypes.foldl
    (fun m h => if (mget m h).isSome then m else m ++ [(h, [])]) hb

/-- The hooks map built by the constructor. -/
def newHB : HB := setupHooks []

/-- The callback Set registered under a hook (`hooks.get(hook)`),
defaulting to empty when the key is absent. -/
def cbsOf (hb : HB) (h : Hook) : List Cb := (mget hb h).getD []

/-- LifecycleManager.on: create the key when missing, then Set.add the
callback. -/
def hookOn (hb : HB) (h : Hook) (cb : Cb) : HB :=
  let hb1 := if (mget hb h).isSome then hb else mset hb h []
  let cur := (mget hb1 h).getD []
  mset hb1 h (if cb ∈ cur then cur else cur ++ [cb])

/-- LifecycleManager.clear: with a hook, `hooks.delete(hook)` — the key
is removed outright; with no argument, `hooks.clear()` followed by
initializeHooks. -/
def clearHB (hb : HB) : Option Hook → HB
  | some h => mdel hb h
  | none => setupHooks []

/-- An argument value passed to a hook callback. -/
inductive EVal where
  | str : String → EVal
  | err : String → EVal
  | hk : Hook → EVal
  deriving DecidableEq, Repr

/-- One observed callback invocation: callback id, the hook it was
registered under, and the argument list it received. -/
abbrev HookInv : Type := Nat × Hook × List EVal

/-- LifecycleManager.emit: iterate a snapshot of the hook's callback
set; a throwing callback is caught and logged and, unless the hook being
emitted is itself the error hook, `emit('error', thrownError, hook)`
runs immediately (whose own throwing callbacks are caught without
further re-emission).  Returns the invocation sequence. -/
def emitHB (hb : HB) (h : Hook) (args : List EVal) : List HookInv :=
  (cbsOf hb h).flatMap (fun cb =>
    (cb.id, h, args) ::
      match cb.throwsWith with
      | none => []
      | some e =>
        if h = Hook.error then []
        else
          (cbsOf hb Hook.error).map (fun c2 =>
            (c2.id, Hook.error, [EVal.err e, EVal.hk h])))

/-! ## Coordinator teardown (src/core/SDKManager.ts)

Only the state that destroy() touches is modelled: the plugin registry,
the store, the hook bus and the two flags.  Hook callbacks run for
`beforeUnmount`/`afterUnmount` do not act back on this state in the
model (they are arbitrary user callbacks in the source; no claim depends
on such feedback), so the emissions themselves are not tracked here. -/

structure SDK where
  pm : PM
  store : Store
  hb : HB
  isInitialized : Bool
  isDestroyed : Bool
  deriving Repr

/-- State of the destroy-ordering DFS: the output list and the
`visited` / `visiting` sets. -/
structure SortSt where
  sorted : List Plugin
  visited : List String
  visiting : List String
  deriving Repr

/-- The `visit` closure of sortPluginsByDependenciesReverse: skip a
plugin already being visited or already done; otherwise mark it
visiting, first visit every other plugin that lists it as a dependency,
then mark it done and append it.  `inl` is one `visit(plugin)` call,
`inr` the loop over candidate dependents; fuel decreases on every
call. -/
def sortVisitGo (plugins : List Plugin) :
    Nat → Sum Plugin (Plugin × List Plugin) → SortSt → SortSt
  | 0, _, st => st
  | fuel + 1, Sum.inl p, st =>
    if p.name ∈ st.visiting then st
    else if p.name ∈ st.visited then st
    else
      let st1 : SortSt := ⟨st.sorted, st.visited, p.name :: st.visiting⟩
      let st2 := sortVisitGo plugins fuel (Sum.inr (p, plugins)) st1
      ⟨st2.sorted ++ [p], p.name :: st2.visited, st2.visiting.erase p.name⟩
  | _ + 1, Sum.inr (_, []), st => st
  | fuel + 1, Sum.inr (p, o :: rest), st =>
    let st1 :=
      if p.name ∈ depsOrNil o then sortVisitGo plugins fuel (Sum.inl o) st
      else st
    sortVisitGo plugins fuel (Sum.inr (p, rest)) st1

/-- Fuel bound for the destroy-ordering DFS. -/
def sortFuel (plugins : List Plugin) : Nat :=
  (plugins.length + 2) * (plugins.length + 2)

/-- SDKManager.sortPluginsByDependenciesReverse: run `visit` over every
plugin in order; the result lists dependents before their
dependencies. -/
def sortPluginsByDependenciesReverse (plugins : List Plugin) :
    List Plugin :=
  (plugins.foldl
    (fun st p => sortVisitGo plugins (sortFuel plugins) (Sum.inl p) st)
    ⟨[], [], []⟩).sorted

/-- The disable pass of destroy(): for each name in the computed order,
re-read the plugin and, when enabled, attempt `disable`; on any disable
error fall back to calling the plugin's raw destroy callback (whose
throw aborts the whole destroy) and force the enabled flag off.
Returns the registry after the pass, or the raw escaped error. -/
def disablePass (pm : PM) : List String → PM × Option SDKErr
  | [] => (pm, none)
  | n :: rest =>
    match mget pm.plugins n with
    | none => disablePass pm rest
    | some p =>
      if p.enabled then
        match disable pm n with
        | (pm', none) => disablePass pm' rest
        | (pm', some _) =>
          if p.destroyFn = some false then
            (pm', some ⟨codeDestructionFailed, none⟩)
          else
            disablePass
              ⟨mset pm'.plugins n { p with enabled := false },
                pm'.dependencyGraph⟩ rest
      else disablePass pm rest

/-- The unregister pass of destroy(): attempt `unregister` for each
name, swallowing (logging) every failure. -/
def unregPass (pm : PM) : List String → PM
  | [] => pm
  | n :: rest => unregPass (unregister pm n).1 rest

/-- SDKManager.destroy: no-op when already destroyed; otherwise disable
in the computed dependents-first order, then unregister iterating
`allPlugins` — the registration-order list captured before the disable
pass, not the computed order — then clear store listeners and hooks and
set the flags.  Only a throw escaping the disable pass aborts (wrapped
as DESTRUCTION_FAILED, flags untouched). -/
def destroySDK (s : SDK) : SDK × Option SDKErr :=
  if s.isDestroyed then (s, none)
  else
    let allPlugins := getAll s.pm
    let sorted := sortPluginsByDependenciesReverse allPlugins
    match disablePass s.pm (sorted.map Plugin.name) with
    | (pm1, some e) => ({ s with pm := pm1 }, some e)
    | (pm1, none) =>
      let pm2 := unregPass pm1 (allPlugins.map Plugin.name)
      (⟨pm2,
        { s.store with listeners := [] },
        clearHB s.hb none,
        false, true⟩, none)

/-- getInfo().pluginCount. -/
def pluginCount (s : SDK) : Nat := (getAll s.pm).length

/-! ## Aliasing model of the registry (for the shallow-copy claim)

The pure `PM` model above collapses JavaScript object identity.  To
reason about which *object* the registry mutates when it flips the
`enabled` flag, this refinement of PluginManager keeps descriptors in an
explicit heap addressed by object ids: `register` receives the id of the
caller's descriptor object and stores `{ ...plugin }`, i.e. a freshly
allocated object holding the same field values; `enable`, `disable` and
the destroy-time force-disable write through the registry's stored id.
Validation reuses the pure functions on the registry's derived view. -/

structure HeapWorld where
  heap : List (Nat × Plugin)
  nextOid : Nat
  registry : List (String × Nat)
  dependencyGraph : List (String × List String)
  deriving Repr

/-- The plugins map as the pure model sees it: each registry entry
dereferenced through the heap. -/
def regPlugins (w : HeapWorld) : List (String × Plugin) :=
  w.registry.filterMap (fun e => (mget w.heap e.2).map (fun p => (e.1, p)))

/-- The pure-model view of an aliasing world. -/
def pmView (w : HeapWorld) : PM := ⟨regPlugins w, w.dependencyGraph⟩

/-- PluginManager.register on the heap model: after the duplicate-name
and dependency checks, `this.plugins.set(plugin.name, { ...plugin })`
allocates a fresh object (id `w.nextOid`) shallow-copying the caller's
fields; the caller's object is not stored.  The success flag is false
when the registration threw — including the initialize-throw case, in
which the copy nevertheless stays registered, as in the source. -/
def registerH (w : HeapWorld) (c : Nat) : HeapWorld × Bool :=
  match mget w.heap c with
  | none => (w, false)
  | some p =>
    if (mget w.registry p.name).isSome then (w, false)
    else if (validateDeps (pmView w) p).isSome then (w, false)
    else
      (⟨w.heap ++ [(w.nextOid, p)],
        w.nextOid + 1,
        w.registry ++ [(p.name, w.nextOid)],
        updateGraph w.dependencyGraph p⟩,
        !(p.enabled ∧ p.initFn = some false : Bool))

/-- PluginManager.enable on the heap model: `plugin.enabled = true`
mutates the object the registry's map points to.  Failure paths leave
the heap untouched. -/
def enableH (w : HeapWorld) (n : String) : HeapWorld :=
  match mget w.registry n with
  | none => w
  | some oid =>
    match mget w.heap oid with
    | none => w
    | some p =>
      if p.enabled then w
      else if (depsOrNil p).any (fun d =>
          match mget (regPlugins w) d with
          | none => true
          | some q => !q.enabled) then w
      else if p.initFn = some false then w
      else { w with heap := mset w.heap oid { p with enabled := true } }

/-- PluginManager.disable on the heap model. -/
def disableH (w : HeapWorld) (n : String) : HeapWorld :=
  match mget w.registry n with
  | none => w
  | some oid =>
    match mget w.heap oid with
    | none => w
    | some p =>
      if !p.enabled then w
      else if ((mget w.dependencyGraph n).getD []).any (fun d =>
          match mget (regPlugins w) d with
          | none => false
          | some q => q.enabled) then w
      else if p.destroyFn = some false then w
      else { w with heap := mset w.heap oid { p with enabled := false } }

/-- The destroy-time force-disable of SDKManager.destroy:
`plugin.enabled = false` written directly through the stored object
reference obtained from getAll(). -/
def forceDisableH (w : HeapWorld) (n : String) : HeapWorld :=
  match mget w.registry n with
  | none => w
  | some oid =>
    match mget w.heap oid with
    | none => w
    | some p => { w with heap := mset w.heap oid { p with enabled := false } }

/-- A registry operation that flips the enabled flag. -/
inductive HOp where
  | en : String → HOp
  | dis : String → HOp
  | force : String → HOp
  deriving DecidableEq, Repr

def applyHOp (w : HeapWorld) : HOp → HeapWorld
  | HOp.en n => enableH w n
  | HOp.dis n => disableH w n
  | HOp.force n => forceDisableH w n

def applyHOps (w : HeapWorld) (ops : List HOp) : HeapWorld :=
  ops.foldl applyHOp w

/-! ## Support lemmas -/

theorem mget_append {κ α : Type} [DecidableEq κ]
    (m m' : List (κ × α)) (k : κ) :
    mget (m ++ m') k =
      match mget m k with
      | some v => some v
      | none => mget m' k := by
  induction m with
  | nil => simp [mget]
  | cons hd t ih =>
    by_cases h : hd.1 = k
    · simp [mget, h]
    · simp [mget, h, ih]

theorem mget_eq_none_of_keys {κ α : Type} [DecidableEq κ]
    (m : List (κ × α)) (k : κ) (h : ∀ q ∈ m, q.1 ≠ k) :
    mget m k = none := by
  induction m with
  | nil => rfl
  | cons hd t ih =>
    have h1 : hd.1 ≠ k := h hd (List.mem_cons_self _ _)
    simp [mget, h1]
    exact ih (fun q hq => h q (List.mem_cons_of_mem _ hq))

theorem mget_mdel_ne {κ α : Type} [DecidableEq κ]
    (m : List (κ × α)) (k k' : κ) (h : k ≠ k') :
    mget (mdel m k) k' = mget m k' := by
  induction m with
  | nil => rfl
  | cons hd t ih =>
    by_cases hh : hd.1 = k
    · simp [mget, mdel, hh, h]
    · by_cases hk' : hd.1 = k'
      · simp [mget, mdel, hh, hk', Ne.symm h]
      · simp [mget, mdel, hh, hk', ih]

theorem mget_mdel_self {κ α : Type} [DecidableEq κ]
    (m : List (κ × α)) (k : κ) (hnd : (m.map Prod.fst).Nodup) :
    mget (mdel m k) k = none := by
  induction m with
  | nil => rfl
  | cons hd t ih =>
    simp only [List.map_cons, List.nodup_cons] at hnd
    by_cases hh : hd.1 = k
    · simp only [mdel, if_pos hh]
      apply mget_eq_none_of_keys
      intro q hq hqk
      exact hnd.1 (hh ▸ hqk ▸ List.mem_map_of_mem Prod.fst hq)
    · simp [mget, mdel, hh, ih hnd.2]

/-! ## Claim theorems -/

/-- Concrete plugin names for the scenario evaluations. -/
def nmA : String := "A"

def nmB : String := "B"

/-- Plugin A of the P3 scenario: no dependencies, registered disabled,
no lifecycle callbacks. -/
def pluginA : Plugin := ⟨nmA, false, none, none, none⟩

/-- Plugin B of the P3 scenario: depends on A. -/
def pluginB : Plugin := ⟨nmB, false, some [nmA], none, none⟩

/-- The registry after `register(A); register(B)`. -/
def pmAB : PM := (register (register PM.empty pluginA).1 pluginB).1

/-- C1: in the registry holding A and B (where B depends on A),
`unregister('A')` fails carrying PLUGIN_HAS_DEPENDENTS and leaves the
registry unchanged (B remains registered), and `unregister('B')`
succeeds and removes B — exactly as the claim states.  But the
subsequent `unregister('A')`, which the claim asserts succeeds, still
fails carrying PLUGIN_HAS_DEPENDENTS and leaves A registered:
`unregister('B')` deletes only the graph key `'B'` and never removes
`'B'` from the dependent set stored under `'A'`, so the stale reverse
edge blocks A's unregistration forever. -/
theorem spec_c1_unregister_dependents_eval :
    ((unregister pmAB nmA).2 = some ⟨codeUnregFailed, some codeHasDependents⟩ ∧
      (unregister pmAB nmA).1 = pmAB ∧
      mget pmAB.plugins nmB = some pluginB) ∧
    ((unregister pmAB nmB).2 = none ∧
      mget (unregister pmAB nmB).1.plugins nmB = none) ∧
    ((unregister (unregister pmAB nmB).1 nmA).2 =
        some ⟨codeUnregFailed, some codeHasDependents⟩ ∧
      mget (unregister (unregister pmAB nmB).1 nmA).1.plugins nmA =
        some pluginA) := by
  decide

/-- The empty store used by the coordinator scenario (initial state
`{}`, no persistence, no subscribers). -/
def storeEmpty : Store := ⟨⟨0, []⟩, 1, [], false, none⟩

/-- An initialized coordinator holding the A/B registry. -/
def sdkAB : SDK := ⟨pmAB, storeEmpty, newHB, true, false⟩

/-- C2: destroy() on the coordinator holding A and B (B depends on A)
completes successfully and sets isDestroyed, but it does NOT unregister
every plugin: the unregister loop iterates the registration-order list
`allPlugins` — even though the dependents-first order it computed is
[B, A] — so A's unregistration is attempted while B is still registered
and fails, is skipped, and is never retried; the stale reverse edge of
the C1 bug would block a retry anyway.  Afterwards pluginCount is 1,
not 0, with A still registered. -/
theorem spec_c2_destroy_leaves_plugin_eval :
    (destroySDK sdkAB).2 = none ∧
    (destroySDK sdkAB).1.isDestroyed = true ∧
    (sortPluginsByDependenciesReverse (getAll pmAB)).map Plugin.name =
      [nmB, nmA] ∧
    pluginCount (destroySDK sdkAB).1 = 1 ∧
    mget (destroySDK sdkAB).1.pm.plugins nmA = some pluginA := by
  decide

/-- C4: registering a descriptor whose name is already registered fails
with an error carrying PLUGIN_ALREADY_EXISTS (wrapped, per the source's
catch block, in PLUGIN_REGISTRATION_FAILED) and leaves the whole
registry — in particular the previously stored descriptor — unchanged,
for every registry state and descriptor. -/
theorem spec_c4_register_duplicate (pm : PM) (p : Plugin)
    (h : (mget pm.plugins p.name).isSome) :
    (register pm p).1 = pm ∧
    ∃ e, (register pm p).2 = some e ∧ e.hasCode codeAlreadyExists := by
  refine ⟨by simp [register, h], ⟨codeRegFailed, some codeAlreadyExists⟩,
    by simp [register, h], Or.inr rfl⟩

/-- Witness for C4: registering A twice. -/
theorem spec_c4_register_duplicate_witness :
    ((register (register PM.empty pluginA).1 pluginA).1 =
        (register PM.empty pluginA).1 ∧
      ∃ e, (register (register PM.empty pluginA).1 pluginA).2 = some e ∧
        e.hasCode codeAlreadyExists) := by
  exact spec_c4_register_duplicate (register PM.empty pluginA).1 pluginA
    (by decide)

/-- C5: with A and B registered and disabled, B depending on A (and
neither having a throwing initialize callback), `enable('B')` fails
carrying DEPENDENCY_NOT_ENABLED (wrapped in PLUGIN_ENABLE_FAILED) and
changes nothing — B stays disabled; `enable('A')` succeeds; and
`enable('B')` afterwards succeeds and stores B with its enabled flag set
to true. -/
theorem spec_c5_enable_dependency_gate
    (pm : PM) (nA nB : String) (pA pB : Plugin)
    (hne : nA ≠ nB)
    (hA : mget pm.plugins nA = some pA)
    (hB : mget pm.plugins nB = some pB)
    (hAdis : pA.enabled = false)
    (hBdis : pB.enabled = false)
    (hAdeps : pA.dependencies = none)
    (hBdeps : pB.dependencies = some [nA])
    (hAinit : pA.initFn ≠ some false)
    (hBinit : pB.initFn ≠ some false) :
    ((enable pm nB).1 = pm ∧
      ∃ e, (enable pm nB).2 = some e ∧ e.hasCode codeDepNotEnabled) ∧
    (enable pm nA).2 = none ∧
    (enable (enable pm nA).1 nB).2 = none ∧
    mget (enable (enable pm nA).1 nB).1.plugins nB =
      some { pB with enabled := true } := by
  have hfail : enable pm nB =
      (pm, some ⟨codeEnableFailed, some codeDepNotEnabled⟩) := by
    simp [enable, hB, hBdis, depsOrNil, hBdeps, hA, hAdis]
  have hokA : enable pm nA =
      (⟨mset pm.plugins nA { pA with enabled := true },
        pm.dependencyGraph⟩, none) := by
    simp [enable, hA, hAdis, depsOrNil, hAdeps, hAinit]
  have hB' : mget (mset pm.plugins nA { pA with enabled := true }) nB =
      some pB := (mget_mset_ne _ _ _ _ hne).trans hB
  have hA' : mget (mset pm.plugins nA { pA with enabled := true }) nA =
      some { pA with enabled := true } := mget_mset_self _ _ _
  have hokB :
      enable
        (⟨mset pm.plugins nA { pA with enabled := true },
          pm.dependencyGraph⟩ : PM) nB =
      (⟨mset (mset pm.plugins nA { pA with enabled := true }) nB
          { pB with enabled := true },
        pm.dependencyGraph⟩, none) := by
    simp [enable, hB', hBdis, depsOrNil, hBdeps, hA', hBinit]
  refine ⟨⟨by rw [hfail], ⟨codeEnableFailed, some codeDepNotEnabled⟩,
    by rw [hfail], Or.inr rfl⟩, by rw [hokA], ?_, ?_⟩
  · rw [hokA, hokB]
  · rw [hokA, hokB]
    exact mget_mset_self _ _ _

/-- Witness for C5: the A/B registry built by two register calls. -/
theorem spec_c5_enable_dependency_gate_witness :
    (((enable pmAB nmB).1 = pmAB ∧
      ∃ e, (enable pmAB nmB).2 = some e ∧ e.hasCode codeDepNotEnabled) ∧
    (enable pmAB nmA).2 = none ∧
    (enable (enable pmAB nmA).1 nmB).2 = none ∧
    mget (enable (enable pmAB nmA).1 nmB).1.plugins nmB =
      some { pluginB with enabled := true }) := by
  exact spec_c5_enable_dependency_gate pmAB nmA nmB pluginA pluginB
    (by decide) (by decide) (by decide) (by decide) (by decide)
    (by decide) (by decide) (by decide) (by decide)

/-- C7 counterexample: the claim says that after `clear(event)` the
event remains a known key of the hook registry with an empty callback
set.  On the constructor-built registry, `clear('stateChange')` executes
`hooks.delete('stateChange')`: the key is gone entirely (lookup yields
`none`), not present with an empty set (`some []`) as before the
call. -/
theorem spec_c7_clear_counterexample :
    mget newHB Hook.stateChange = some [] ∧
    mget (clearHB newHB (some Hook.stateChange)) Hook.stateChange =
      none := by
  decide

/-- C7 amended: `clear(event)` removes the event's key from the hook
registry outright (other events' callback sets are untouched), so the
every-enumerated-event-has-a-set invariant does not survive a
clear-with-argument; only the argumentless `clear()` restores the
initial state in which every enumerated event maps to an empty set. -/
theorem spec_c7_clear_amended (hb : HB) (h : Hook)
    (hnd : (hb.map Prod.fst).Nodup) :
    mget (clearHB hb (some h)) h = none ∧
    (∀ h', h' ≠ h → mget (clearHB hb (some h)) h' = mget hb h') ∧
    (∀ h', mget (clearHB hb none) h' = some []) := by
  refine ⟨mget_mdel_self hb h hnd, fun h' hne => mget_mdel_ne hb h h' (Ne.symm hne), fun h' => ?_⟩
  cases h' <;> rfl

/-- Witness for C7's amended claim: clearing stateChange on a registry
with one beforeMount callback. -/
theorem spec_c7_clear_amended_witness :
    mget (clearHB (hookOn newHB Hook.beforeMount ⟨7, none⟩)
        (some Hook.stateChange)) Hook.stateChange = none ∧
    mget (clearHB (hookOn newHB Hook.beforeMount ⟨7, none⟩)
        (some Hook.stateChange)) Hook.beforeMount =
      mget (hookOn newHB Hook.beforeMount ⟨7, none⟩) Hook.beforeMount ∧
    mget (clearHB (hookOn newHB Hook.beforeMount ⟨7, none⟩) none)
      Hook.afterUnmount = some [] := by
  have h := spec_c7_clear_amended
    (hookOn newHB Hook.beforeMount ⟨7, none⟩) Hook.stateChange (by decide)
  exact ⟨h.1, h.2.1 Hook.beforeMount (by decide), h.2.2 Hook.afterUnmount⟩

theorem lookupEff_of_noop (env : LEnv)
    (hn : ∀ q ∈ env, q.2 = LEffect.noop) (x : Nat) :
    lookupEff env x = LEffect.noop := by
  unfold lookupEff
  cases hg : mget env x with
  | none => rfl
  | some eff =>
    have := hn _ (mget_mem env x eff hg)
    simp at this
    simp [this]

theorem forEachStep_noop (env : LEnv)
    (hn : ∀ q ∈ env, q.2 = LEffect.noop) (l : List Nat) :
    ∀ fuel i, l.length ≤ i + fuel →
      (forEachStep env fuel (l.map some) i).1 = l.drop i := by
  intro fuel
  induction fuel with
  | zero =>
    intro i hi
    simp at hi
    simp [forEachStep, List.drop_eq_nil_of_le hi]
  | succ fuel ih =>
    intro i hi
    by_cases hlt : i < l.length
    · have hget : (l.map some)[i]? = some (some l[i]) := by
        simp [List.getElem?_map, List.getElem?_eq_getElem hlt]
      simp only [forEachStep, hget]
      rw [lookupEff_of_noop env hn]
      simp only [applyEff]
      rw [ih (i + 1) (by omega)]
      exact (List.drop_eq_getElem_cons hlt).symm
    · have hge : l.length ≤ i := by omega
      have hget : (l.map some)[i]? = none := by
        simp [List.getElem?_eq_none, hge]
      simp [forEachStep, hget, List.drop_eq_nil_of_le hge]

theorem notifyListeners_noop (env : LEnv)
    (hn : ∀ q ∈ env, q.2 = LEffect.noop) (l : List Nat) :
    (notifyListeners env l).1 = l := by
  unfold notifyListeners
  simpa using forEachStep_noop env hn l (l.length + env.length + 1) 0
    (by omega)

theorem notifyListeners_live_add (a b c : Nat)
    (hab : a ≠ b) (hca : c ≠ a) (hcb : c ≠ b) :
    (notifyListeners [(a, LEffect.addL c)] [a, b]).1 = [a, b, c] := by
  have he : lookupEff [(a, LEffect.addL c)] a = LEffect.addL c := by
    simp [lookupEff, mget]
  have hb' : lookupEff [(a, LEffect.addL c)] b = LEffect.noop := by
    simp [lookupEff, mget, hab]
  have hc' : lookupEff [(a, LEffect.addL c)] c = LEffect.noop := by
    simp [lookupEff, mget, Ne.symm hca]
  unfold notifyListeners
  show (forEachStep [(a, LEffect.addL c)] (3 + 1) [some a, some b] 0).1 =
    [a, b, c]
  rw [forEachStep]
  simp only [List.getElem?_cons_zero, he, applyEff, List.mem_cons,
    List.not_mem_nil, or_false, Option.some.injEq, List.cons_append,
    List.nil_append]
  rw [if_neg (by simp [hca, hcb])]
  show a :: (forEachStep [(a, LEffect.addL c)] (2 + 1)
      [some a, some b, some c] (0 + 1)).1 = [a, b, c]
  rw [forEachStep]
  simp only [List.getElem?_cons_succ, List.getElem?_cons_zero, hb',
    applyEff]
  show a :: b :: (forEachStep [(a, LEffect.addL c)] (1 + 1)
      [some a, some b, some c] (0 + 1 + 1)).1 = [a, b, c]
  rw [forEachStep]
  simp only [List.getElem?_cons_succ, List.getElem?_cons_zero, hc',
    applyEff]
  show a :: b :: c :: (forEachStep [(a, LEffect.addL c)] (0 + 1)
      [some a, some b, some c] (0 + 1 + 1 + 1)).1 = [a, b, c]
  rw [forEachStep]
  simp

theorem notifyListeners_live_remove (a b : Nat) (hab : a ≠ b) :
    (notifyListeners [(a, LEffect.removeL b)] [a, b]).1 = [a] := by
  have he : lookupEff [(a, LEffect.removeL b)] a = LEffect.removeL b := by
    simp [lookupEff, mget]
  unfold notifyListeners
  show (forEachStep [(a, LEffect.removeL b)] (3 + 1) [some a, some b] 0).1 =
    [a]
  rw [forEachStep]
  simp only [List.getElem?_cons_zero, he, applyEff, List.map_cons,
    List.map_nil, Option.some.injEq]
  rw [if_neg (by simp [hab])]
  simp only [if_true]
  show a :: (forEachStep [(a, LEffect.removeL b)] (2 + 1)
      [some a, none] (0 + 1)).1 = [a]
  rw [forEachStep]
  simp only [List.getElem?_cons_succ, List.getElem?_cons_zero]
  show a :: (forEachStep [(a, LEffect.removeL b)] (1 + 1)
      [some a, none] (0 + 1 + 1)).1 = [a]
  rw [forEachStep]
  simp

/-- C8: a functional update returning the previous reference
(`f st.state = st.state` in the object-identity model) short-circuits
completely: no subscriber is invoked, no persistence write happens, and
the store (value, counter, listeners, config) is unchanged. -/
theorem spec_c8_identity_short_circuit (env : LEnv) (st : Store)
    (f : JSObj → JSObj) (h : f st.state = st.state) :
    setState env st (Upd.fn f) = ⟨st, [], []⟩ := by
  simp [setState, h]

/-- Witness for C8: the identity update on the empty store. -/
theorem spec_c8_identity_short_circuit_witness :
    setState [] storeEmpty (Upd.fn id) = ⟨storeEmpty, [], []⟩ :=
  spec_c8_identity_short_circuit [] storeEmpty id rfl

/-- C10: an object-form update always builds a freshly allocated object
by shallow merge — even for an empty patch or one assigning equal
values — so the identity guard never fires for it: the new state is the
fresh merge, is never reference-identical to the previous state, and
every subscriber of a mutation-free subscriber set is notified exactly
once (the invocation log is exactly the listener list).  The freshness
hypothesis `st.state.oid < st.nextOid` is the allocator invariant every
store reachable by the model satisfies. -/
theorem spec_c10_object_update_always_notifies
    (env : LEnv) (st : Store) (patch : List (String × Int))
    (hwf : st.state.oid < st.nextOid)
    (hn : ∀ q ∈ env, q.2 = LEffect.noop) :
    (setState env st (Upd.obj patch)).store.state =
      ⟨st.nextOid, spreadMerge st.state.fields patch⟩ ∧
    (setState env st (Upd.obj patch)).store.state ≠ st.state ∧
    (setState env st (Upd.obj patch)).log = st.listeners := by
  have hne : (⟨st.nextOid, spreadMerge st.state.fields patch⟩ : JSObj) ≠
      st.state := by
    intro heq
    have : st.nextOid = st.state.oid := congrArg JSObj.oid heq
    omega
  refine ⟨?_, ?_, ?_⟩
  · simp [setState, hne]
  · simp [setState, hne]
  · simp [setState, hne, notifyListeners_noop env hn]

/-- Witness for C10: an empty patch on a store with one subscriber. -/
theorem spec_c10_object_update_always_notifies_witness :
    (setState [] ⟨⟨0, []⟩, 1, [4], false, none⟩ (Upd.obj [])).store.state =
      ⟨1, spreadMerge [] []⟩ ∧
    (setState [] ⟨⟨0, []⟩, 1, [4], false, none⟩
        (Upd.obj [])).store.state ≠ ⟨0, []⟩ ∧
    (setState [] ⟨⟨0, []⟩, 1, [4], false, none⟩ (Upd.obj [])).log = [4] := by
  have h := spec_c10_object_update_always_notifies []
    ⟨⟨0, []⟩, 1, [4], false, none⟩ [] (by decide) (by simp)
  exact ⟨h.1, h.2.1, h.2.2⟩

/-- The store of the C3 counterexample: one subscriber (id 0) whose
callback subscribes a new listener (id 1). -/
def storeC3 : Store := ⟨⟨0, []⟩, 1, [0], false, none⟩

def envAdd01 : LEnv := [(0, LEffect.addL 1)]

/-- C3 counterexample: the claim says a setState that changes the value
notifies exactly the snapshot of subscribers present at the start of the
pass, so a subscriber added by a callback during the pass must not be
invoked in that pass.  With subscriber 0 present (the only one) whose
callback subscribes 1, the value-changing update notifies [0, 1]:
`notifyListeners` iterates `this.listeners.forEach(...)` on the live
Set, so the appended subscriber 1 is reached and invoked in the same
pass. -/
theorem spec_c3_snapshot_counterexample :
    storeC3.listeners = [0] ∧
    (setState envAdd01 storeC3 (Upd.obj [])).log = [0, 1] := by
  decide

/-- C3 amended: the Store's notification pass iterates the live
subscriber Set, not a snapshot: when no callback mutates the subscriber
set, each subscriber present at the setState call is invoked exactly
once (the log is exactly the listener list); a subscriber appended by an
earlier callback during the pass IS additionally invoked in the same
pass; and a subscriber removed by an earlier callback before being
reached is NOT invoked for that call. -/
theorem spec_c3_live_iteration
    (env : LEnv) (st st' : Store) (a b c : Nat) (f : JSObj → JSObj)
    (hn : ∀ q ∈ env, q.2 = LEffect.noop)
    (hch : f st.state ≠ st.state)
    (hab : a ≠ b) (hca : c ≠ a) (hcb : c ≠ b)
    (hl : st'.listeners = [a, b])
    (hch' : f st'.state ≠ st'.state) :
    (setState env st (Upd.fn f)).log = st.listeners ∧
    (setState [(a, LEffect.addL c)] st' (Upd.fn f)).log = [a, b, c] ∧
    (setState [(a, LEffect.removeL b)] st' (Upd.fn f)).log = [a] := by
  refine ⟨?_, ?_, ?_⟩
  · simp [setState, hch, notifyListeners_noop env hn]
  · simp [setState, hch', hl, notifyListeners_live_add a b c hab hca hcb]
  · simp [setState, hch', hl, notifyListeners_live_remove a b hab]

def storeW3 : Store := ⟨⟨0, []⟩, 1, [0, 1], false, none⟩

def bumpOid : JSObj → JSObj := fun s => ⟨s.oid + 1, s.fields⟩

/-- Witness for C3's amended claim on a two-subscriber store. -/
theorem spec_c3_live_iteration_witness :
    (setState [] storeW3 (Upd.fn bumpOid)).log = storeW3.listeners ∧
    (setState [(0, LEffect.addL 2)] storeW3 (Upd.fn bumpOid)).log =
      [0, 1, 2] ∧
    (setState [(0, LEffect.removeL 1)] storeW3 (Upd.fn bumpOid)).log =
      [0] := by
  have h := spec_c3_live_iteration [] storeW3 storeW3 0 1 2 bumpOid
    (by simp) (by decide) (by decide) (by decide) (by decide) rfl
    (by decide)
  exact ⟨h.1, h.2.1, h.2.2⟩

theorem emitHB_error_pass (hb : HB) (args : List EVal) :
    emitHB hb Hook.error args =
      (cbsOf hb Hook.error).map (fun cb => (cb.id, Hook.error, args)) := by
  unfold emitHB
  generalize cbsOf hb Hook.error = l
  induction l with
  | nil => rfl
  | cons cb t ih =>
    cases h : cb.throwsWith <;> simp_all

/-- C6: when the callback set registered under an event consists of one
throwing callback followed by one non-throwing callback, emitting the
event invokes the non-throwing callback exactly once with the original
arguments (the throw is caught, never propagated: `emitHB` always
returns an invocation sequence); when the event is not the error event,
the caught error is immediately re-emitted as
`emit('error', thrownError, event)` between the two invocations; and
when the event is the error event itself, no re-emission happens. -/
theorem spec_c6_emit_error_isolation
    (hb : HB) (h : Hook) (args : List EVal) (i1 i2 : Nat) (e : String)
    (hcbs : cbsOf hb h = [⟨i1, some e⟩, ⟨i2, none⟩])
    (hids : i1 ≠ i2) :
    (emitHB hb h args).count (i2, h, args) = 1 ∧
    (h ≠ Hook.error →
      emitHB hb h args =
        ((i1, h, args) :: emitHB hb Hook.error [EVal.err e, EVal.hk h]) ++
          [(i2, h, args)]) ∧
    (h = Hook.error →
      emitHB hb h args = [(i1, h, args), (i2, h, args)]) := by
  by_cases herr : h = Hook.error
  · subst herr
    have hshape : emitHB hb Hook.error args =
        [(i1, Hook.error, args), (i2, Hook.error, args)] := by
      rw [emitHB_error_pass, hcbs]
      rfl
    refine ⟨?_, fun hne => absurd rfl hne, fun _ => hshape⟩
    rw [hshape]
    simp [List.count_cons, hids]
  · have hshape : emitHB hb h args =
        ((i1, h, args) ::
          (cbsOf hb Hook.error).map (fun c2 =>
            (c2.id, Hook.error, [EVal.err e, EVal.hk h]))) ++
          [(i2, h, args)] := by
      unfold emitHB
      rw [hcbs]
      simp [herr]
    refine ⟨?_, fun _ => by rw [hshape, emitHB_error_pass], fun hh =>
      absurd hh herr⟩
    rw [hshape]
    have hz : ((cbsOf hb Hook.error).map (fun c2 =>
        ((c2.id, Hook.error, [EVal.err e, EVal.hk h]) : HookInv))).count
        (i2, h, args) = 0 := by
      rw [List.count_eq_zero]
      intro hmem
      rcases List.mem_map.mp hmem with ⟨c2, _, hc2⟩
      have : Hook.error = h := congrArg (fun q : HookInv => q.2.1) hc2
      exact herr this.symm
    simp [List.count_cons, List.count_append, hids, hz]

def msgBoom : String := "boom"

/-- The bus of the C6 witness: stateChange has a throwing callback (1)
then a normal one (2); one error callback (9) is registered. -/
def hbW : HB :=
  [(Hook.stateChange, [⟨1, some msgBoom⟩, ⟨2, none⟩]),
    (Hook.error, [⟨9, none⟩])]

/-- Witness for C6 on the concrete bus. -/
theorem spec_c6_emit_error_isolation_witness :
    (emitHB hbW Hook.stateChange []).count (2, Hook.stateChange, []) = 1 ∧
    emitHB hbW Hook.stateChange [] =
      ((1, Hook.stateChange, []) :: emitHB hbW Hook.error
        [EVal.err msgBoom, EVal.hk Hook.stateChange]) ++
        [(2, Hook.stateChange, [])] := by
  have h := spec_c6_emit_error_isolation hbW Hook.stateChange [] 1 2
    msgBoom (by decide) (by decide)
  exact ⟨h.1, h.2.1 (by decide)⟩

/-- The write discipline of the flag-flipping operations: either the
world is untouched, or exactly one heap cell is overwritten, and that
cell is one the registry points to. -/
def WritesRegistered (w w' : HeapWorld) : Prop :=
  w' = w ∨ ∃ k oid p', mget w.registry k = some oid ∧
    w' = { w with heap := mset w.heap oid p' }

theorem enableH_writes (w : HeapWorld) (n : String) :
    WritesRegistered w (enableH w n) := by
  cases hg : mget w.registry n with
  | none => left; simp [enableH, hg]
  | some oid =>
    cases hh : mget w.heap oid with
    | none => left; simp [enableH, hg, hh]
    | some p =>
      simp only [enableH, hg, hh]
      split
      · exact Or.inl rfl
      · split
        · exact Or.inl rfl
        · split
          · exact Or.inl rfl
          · exact Or.inr ⟨n, oid, { p with enabled := true }, hg, rfl⟩

theorem disableH_writes (w : HeapWorld) (n : String) :
    WritesRegistered w (disableH w n) := by
  cases hg : mget w.registry n with
  | none => left; simp [disableH, hg]
  | some oid =>
    cases hh : mget w.heap oid with
    | none => left; simp [disableH, hg, hh]
    | some p =>
      simp only [disableH, hg, hh]
      split
      · exact Or.inl rfl
      · split
        · exact Or.inl rfl
        · split
          · exact Or.inl rfl
          · exact Or.inr ⟨n, oid, { p with enabled := false }, hg, rfl⟩

theorem forceDisableH_writes (w : HeapWorld) (n : String) :
    WritesRegistered w (forceDisableH w n) := by
  cases hg : mget w.registry n with
  | none => left; simp [forceDisableH, hg]
  | some oid =>
    cases hh : mget w.heap oid with
    | none => left; simp [forceDisableH, hg, hh]
    | some p =>
      simp only [forceDisableH, hg, hh]
      exact Or.inr ⟨n, oid, { p with enabled := false }, hg, rfl⟩

theorem applyHOp_frame (c : Nat) (w : HeapWorld) (op : HOp)
    (hr : ∀ en ∈ w.registry, en.2 ≠ c) :
    mget (applyHOp w op).heap c = mget w.heap c ∧
    (applyHOp w op).registry = w.registry := by
  have key : WritesRegistered w (applyHOp w op) := by
    cases op with
    | en n => exact enableH_writes w n
    | dis n => exact disableH_writes w n
    | force n => exact forceDisableH_writes w n
  rcases key with h | ⟨k, oid, p', hg, h⟩
  · rw [h]; exact ⟨rfl, rfl⟩
  · have hoid : oid ≠ c := hr (k, oid) (mget_mem _ _ _ hg)
    rw [h]
    exact ⟨mget_mset_ne _ _ _ _ hoid, rfl⟩

theorem applyHOps_frame (c : Nat) (ops : List HOp) :
    ∀ w : HeapWorld, (∀ en ∈ w.registry, en.2 ≠ c) →
      mget (applyHOps w ops).heap c = mget w.heap c := by
  induction ops with
  | nil => intro w _; rfl
  | cons op rest ih =>
    intro w hr
    have h1 := applyHOp_frame c w op hr
    have h2 := ih (applyHOp w op) (fun en hen => hr en (h1.2 ▸ hen))
    calc mget (applyHOps w (op :: rest)).heap c
        = mget (applyHOps (applyHOp w op) rest).heap c := rfl
      _ = mget (applyHOp w op).heap c := h2
      _ = mget w.heap c := h1.1

/-- C9: `register` stores `{ ...plugin }` — a freshly allocated shallow
copy — so the registry's map points at the copy (a new object id, same
field values), never at the caller's object, and every later
enabled-flag flip (`enable`, `disable`, destroy-time force-disable)
writes only through ids the registry points to: after `register` and any
sequence of such operations the caller's original descriptor object is
bit-for-bit unchanged on the heap.  Hypotheses: the allocator invariant,
the caller's object exists, and the caller's object is not itself one of
the registry's stored copies. -/
theorem spec_c9_register_shallow_copy
    (w : HeapWorld) (c : Nat) (p : Plugin)
    (hwf : ∀ q ∈ w.heap, q.1 < w.nextOid)
    (hc : mget w.heap c = some p)
    (hns : ∀ en ∈ w.registry, en.2 ≠ c) :
    mget (registerH w c).1.heap c = some p ∧
    (∀ ops : List HOp,
      mget (applyHOps (registerH w c).1 ops).heap c = some p) ∧
    ((registerH w c).2 = true →
      mget (registerH w c).1.registry p.name = some w.nextOid ∧
      w.nextOid ≠ c ∧
      mget (registerH w c).1.heap w.nextOid = some p) := by
  have hclt : c < w.nextOid := hwf (c, p) (mget_mem _ _ _ hc)
  have hnoc : w.nextOid ≠ c := by omega
  cases hdup : mget w.registry p.name with
  | some q =>
    have hr : registerH w c = (w, false) := by
      simp [registerH, hc, hdup]
    rw [hr]
    exact ⟨hc, fun ops => (applyHOps_frame c ops w hns).trans hc,
      fun hs => by simp at hs⟩
  | none =>
    cases hval : validateDeps (pmView w) p with
    | some cd =>
      have hr : registerH w c = (w, false) := by
        simp [registerH, hc, hdup, hval]
      rw [hr]
      exact ⟨hc, fun ops => (applyHOps_frame c ops w hns).trans hc,
        fun hs => by simp at hs⟩
    | none =>
      have hr1 : (registerH w c).1 =
          ⟨w.heap ++ [(w.nextOid, p)], w.nextOid + 1,
            w.registry ++ [(p.name, w.nextOid)],
            updateGraph w.dependencyGraph p⟩ := by
        simp [registerH, hc, hdup, hval]
      have hheapc : mget (w.heap ++ [(w.nextOid, p)]) c = some p := by
        rw [mget_append, hc]
      have hrc : ∀ en ∈ w.registry ++ [(p.name, w.nextOid)], en.2 ≠ c := by
        intro en hen
        rcases List.mem_append.mp hen with h1 | h1
        · exact hns en h1
        · rcases List.mem_singleton.mp h1 with rfl
          exact hnoc
      refine ⟨by rw [hr1]; exact hheapc, ?_, ?_⟩
      · intro ops
        rw [hr1]
        exact (applyHOps_frame c ops _ hrc).trans hheapc
      · intro _
        rw [hr1]
        refine ⟨?_, hnoc, ?_⟩
        · rw [mget_append, hdup]
          simp [mget]
        · rw [mget_append,
            mget_eq_none_of_keys w.heap w.nextOid
              (fun q hq => by have := hwf q hq; omega)]
          simp [mget]

/-- The caller's world of the C9 witness: one caller-owned descriptor
object (id 0), empty registry. -/
def w0 : HeapWorld := ⟨[(0, pluginA)], 1, [], []⟩

/-- Witness for C9: register the caller's object, then enable the
plugin; the caller's object (id 0) is untouched, the registry points at
the copy (id 1). -/
theorem spec_c9_register_shallow_copy_witness :
    mget (registerH w0 0).1.heap 0 = some pluginA ∧
    mget (applyHOps (registerH w0 0).1 [HOp.en nmA]).heap 0 =
      some pluginA ∧
    (mget (registerH w0 0).1.registry pluginA.name = some 1 ∧
      (1 : Nat) ≠ 0 ∧
      mget (registerH w0 0).1.heap 1 = some pluginA) := by
  have h := spec_c9_register_shallow_copy w0 0 pluginA (by decide)
    (by decide) (by decide)
  exact ⟨h.1, h.2.1 [HOp.en nmA], h.2.2 (by decide)⟩
